import Mathlib

/-!
Verification development for the `derive-debug` Rust crate (`src/lib.rs`):
a derive macro `#[derive(Dbg)]` generating `Debug` implementations with
customization via `#[dbg(...)]` attributes.

The crate is embedded shallowly: the syn syntax-tree fragments the macro
consumes become inductive types, each Rust function of `src/lib.rs` becomes
a Lean function of the same name, and the generated token stream is kept as
a structured syntax tree (`Body`, `VariantArm`, `FieldFrag`) that records
exactly which tokens the `quote!` invocations of the source emit.  A small
rendering semantics (`renderFrag`, `renderArm`) models what Rust's standard
debug-builder primitives and `write!` do with the emitted code at runtime.
Generics are pass-through tokens in the source and are dropped here.
-/

namespace DeriveDebug

/-- Decidable equality on `Except`, so that concrete runs of the embedded
functions can be checked by `decide`. -/
instance exceptDecEq {ε α : Type} [DecidableEq ε] [DecidableEq α] :
    DecidableEq (Except ε α) := fun x y =>
  match x, y with
  | .ok a, .ok b =>
      if h : a = b then .isTrue (by rw [h]) else .isFalse (by simp [h])
  | .error a, .error b =>
      if h : a = b then .isTrue (by rw [h]) else .isFalse (by simp [h])
  | .ok _, .error _ => .isFalse (by simp)
  | .error _, .ok _ => .isFalse (by simp)

/-- Literal kinds as distinguished by the source's pattern matches: the
option values the macro accepts are string literals (`Lit::Str`); every
other literal kind only ever hits the catch-all error arm, so non-string
literals are collapsed into one constructor carrying a description. -/
inductive RLit where
  | str (value : String)
  | other (descr : String)
  deriving DecidableEq

/-- One element of the `#[dbg(...)]` list: syn's `NestedMeta`.  Paths that
are single identifiers are what `Path::is_ident` recognizes; a key is kept
as that identifier string (a multi-segment path key behaves exactly like an
unrecognized identifier: it reaches the catch-all arm). -/
inductive NestedMeta where
  | metaPath (ident : String)
  | metaList (ident : String)
  | metaNameValue (ident : String) (lit : RLit)
  | lit (l : RLit)
  deriving DecidableEq

/-- Result of `Attribute::parse_meta` on one attribute: syn's `Meta`. -/
inductive RMeta where
  | path (ident : String)
  | list (nested : List NestedMeta)
  | nameValue (lit : RLit)
  deriving DecidableEq

/-- One attribute: its path identifier (the macro only looks at `dbg`
attributes) and its parsed meta. -/
structure RAttribute where
  pathIdent : String
  meta : RMeta
  deriving DecidableEq

/-- A Rust path (callable reference) as a list of `::`-separated segments:
the payload of `FieldPrintType::Custom`. -/
abbrev RPath := List String

/-- Where a `syn::Error` is anchored.  The source anchors errors at the
whole meta (`invalid #[dbg(...)] attribute`), at one nested option
(`invalid option`), at a string literal (formatter parse failure), at a
whole variant (`Internal error`), or at the `union` keyword token. -/
inductive ErrSpan where
  | meta (m : RMeta)
  | nested (n : NestedMeta)
  | litStr (s : String)
  | variantSpan (ident : String)
  | unionToken
  deriving DecidableEq

/-- Model of `syn::Error`: an anchor plus the human-readable message. -/
structure SynError where
  span : ErrSpan
  message : String
  deriving DecidableEq

/-- Models `syn::parse_str::<Path>` from the syn dependency (library code,
not part of `src/`): accepts `::`-separated nonempty identifier segments
(letters, digits, underscores, not starting with a digit) and reports a
parse failure message otherwise.  The claims depend only on such a parse
being fallible with the failure text propagated, not on the exact grammar.
`splitPathChars` splits a character list at each `::` separator. -/
def splitPathChars : List Char → List (List Char)
  | [] => [[]]
  | ':' :: ':' :: rest => [] :: splitPathChars rest
  | c :: rest =>
      match splitPathChars rest with
      | seg :: segs => (c :: seg) :: segs
      | [] => [[c]]

def parsePath (s : String) : Except String RPath :=
  if (splitPathChars s.toList).any (fun seg => seg.isEmpty) then
    .error "expected identifier"
  else if (splitPathChars s.toList).any (fun seg =>
      (!(seg.all (fun c => c.isAlphanum || c == '_'))) ||
        (seg.head?.elim false Char.isDigit)) then
    .error "unexpected token"
  else
    .ok ((splitPathChars s.toList).map (fun seg => String.mk seg))

/-- The source's `FieldPrintType`: how one member is rendered. -/
inductive FieldPrintType where
  | normal
  | placeholder (s : String)
  | skip
  | format (fmt : String)
  | custom (path : RPath)
  deriving DecidableEq

/-- The source's `FieldOutputOptions`: the normalized directive produced by
`parse_options`. -/
structure FieldOutputOptions where
  print_type : FieldPrintType
  aliasName : Option String
  deriving DecidableEq

/-- The source's `OptionsTarget`: the context an annotation list decorates. -/
inductive OptionsTarget where
  | deriveItem
  | enumVariant
  | namedField
  | unnamedField
  deriving DecidableEq

/-- One step of the inner `for option in meta.nested` loop of
`parse_options` (src/lib.rs lines 337-384): the five accepting match arms
with their guards, in source order, then the catch-all `invalid option`
error.  The `formatter` arm parses its value as a path and re-anchors a
parse failure at the value literal. -/
def parseNestedOne (target : OptionsTarget) (res : FieldOutputOptions)
    (option : NestedMeta) : Except SynError FieldOutputOptions :=
  match option with
  | .metaPath k =>
      if k = "skip" ∧ target ≠ .deriveItem then
        .ok { res with print_type := .skip }
      else
        .error ⟨.nested option, "invalid option"⟩
  | .metaNameValue k (.str v) =>
      if k = "placeholder" ∧ (target = .namedField ∨ target = .unnamedField) then
        .ok { res with print_type := .placeholder v }
      else if k = "alias" ∧ target ≠ .unnamedField then
        .ok { res with aliasName := some v }
      else if k = "fmt" ∧ (target = .namedField ∨ target = .unnamedField) then
        .ok { res with print_type := .format v }
      else if k = "formatter" ∧ (target = .namedField ∨ target = .unnamedField) then
        match parsePath v with
        | .ok p => .ok { res with print_type := .custom p }
        | .error e => .error ⟨.litStr v, e⟩
      else
        .error ⟨.nested option, "invalid option"⟩
  | _ => .error ⟨.nested option, "invalid option"⟩

/-- The inner loop of `parse_options` over one attribute's nested list,
threading the accumulated directive and stopping at the first error. -/
def parseNestedList (target : OptionsTarget) (res : FieldOutputOptions) :
    List NestedMeta → Except SynError FieldOutputOptions
  | [] => .ok res
  | option :: rest =>
      match parseNestedOne target res option with
      | .ok res' => parseNestedList target res' rest
      | .error e => .error e

/-- The outer loop of `parse_options` over the attribute list: non-`dbg`
attributes are skipped; a `dbg` attribute whose meta is not a list is the
`invalid #[dbg(...)] attribute` error; otherwise its nested options are
folded into the directive. -/
def parseOptionsLoop (target : OptionsTarget) (res : FieldOutputOptions) :
    List RAttribute → Except SynError FieldOutputOptions
  | [] => .ok res
  | attrib :: rest =>
      if attrib.pathIdent = "dbg" then
        match attrib.meta with
        | .list nested =>
            (match parseNestedList target res nested with
             | .ok res' => parseOptionsLoop target res' rest
             | .error e => .error e)
        | m => .error ⟨.meta m, "invalid #[dbg(...)] attribute"⟩
      else
        parseOptionsLoop target res rest

/-- The source's `parse_options` (src/lib.rs lines 313-388): start from the
default directive (render normally, no alias) and fold every `dbg`
attribute's option list over it. -/
def parse_options (attributes : List RAttribute) (target : OptionsTarget) :
    Except SynError FieldOutputOptions :=
  parseOptionsLoop target ⟨.normal, none⟩ attributes

/-- A named field of a record or union case: syn's `Field` with an `ident`
(only the identifier and the attribute list matter to the macro). -/
structure NamedField where
  ident : String
  attrs : List RAttribute
  deriving DecidableEq

/-- A positional field: identified by its position in the enclosing list. -/
structure UnnamedField where
  attrs : List RAttribute
  deriving DecidableEq

/-- syn's `Fields`: named, positional, or unit. -/
inductive RFields where
  | named (fields : List NamedField)
  | unnamed (fields : List UnnamedField)
  | unit
  deriving DecidableEq

/-- syn's `Variant`: one case of a tagged union. -/
structure RVariant where
  ident : String
  attrs : List RAttribute
  fields : RFields
  deriving DecidableEq

/-- syn's `DataStruct`. -/
structure DataStruct where
  fields : RFields
  deriving DecidableEq

/-- syn's `DataEnum`. -/
structure DataEnum where
  variants : List RVariant
  deriving DecidableEq

/-- syn's `Data`: the structural kind of the annotated item. -/
inductive RData where
  | struct (data : DataStruct)
  | enum (data : DataEnum)
  | union
  deriving DecidableEq

/-- syn's `DeriveInput`: the annotated item (generics dropped: the source
only forwards them verbatim into the emitted impl header). -/
structure DeriveInput where
  ident : String
  attrs : List RAttribute
  data : RData
  deriving DecidableEq

/-- A reference to a field's value occurring in the generated code: through
`self` (top-level struct emission) or through a pattern-bound local (inside
a match arm).  Whether the source additionally takes `&` on the reference
is dropped: it never changes the rendered value. -/
inductive FieldRef where
  | selfNamed (name : String)
  | boundNamed (name : String)
  | selfIndex (i : Nat)
  | boundIndex (i : Nat)
  deriving DecidableEq

/-- One `.field(...)` builder call emitted for one field, recording exactly
which tokens the corresponding `quote!` in `derive_named_fields` or
`derive_unnamed_fields` produces: the label (named shape only), and either
the field reference, a placeholder text used as an argument-free format
template, a format template applied to the field reference, or a formatter
path applied to the field reference. -/
inductive FieldFrag where
  | normalNamed (label : String) (ref : FieldRef)
  | placeholderNamed (label : String) (text : String)
  | fmtNamed (label : String) (tmpl : String) (ref : FieldRef)
  | customNamed (label : String) (fn : RPath) (ref : FieldRef)
  | normalPos (ref : FieldRef)
  | placeholderPos (text : String)
  | fmtPos (tmpl : String) (ref : FieldRef)
  | customPos (fn : RPath) (ref : FieldRef)
  deriving DecidableEq

/-- One entry of the destructuring pattern built by `derive_match_list`:
a binding, or an explicit discard for a field marked skip. -/
inductive PatEntry where
  | bindNamed (name : String)
  | discardNamed (name : String)
  | bindPos (i : Nat)
  | discardPos
  deriving DecidableEq

/-- The destructuring pattern emitted by `derive_match_list`. -/
inductive MatchList where
  | braced (entries : List PatEntry)
  | parens (entries : List PatEntry)
  | unitPat
  deriving DecidableEq

/-- One arm of the generated `match self`: the `debug_struct`/`debug_tuple`
arms of `derive_variant`, the bare `write!(f, display)` arm shared by unit
cases, and the discard-everything arms of `skip_variant` (whose patterns
are the bindingless `\x7b..\x7d` and `(..)`). -/
inductive VariantArm where
  | structArm (caseIdent : String) (pat : MatchList) (display : String)
      (frags : List FieldFrag)
  | tupleArm (caseIdent : String) (pat : MatchList) (display : String)
      (frags : List FieldFrag)
  | writeArm (caseIdent : String) (fmtString : String)
  | structSkipArm (caseIdent : String) (display : String)
  | tupleSkipArm (caseIdent : String) (display : String)
  deriving DecidableEq

/-- The body of the generated `fmt` function. -/
inductive Body where
  | debugStructBody (display : String) (frags : List FieldFrag)
  | debugTupleBody (display : String) (frags : List FieldFrag)
  | unreachableUnchecked
  | matchBody (arms : List VariantArm)
  deriving DecidableEq

/-- Result of `derive_debug_impl`: either the `Debug` impl for the declared
type name, or a compile error (`Error::to_compile_error`, no impl emitted). -/
inductive Output where
  | debugImpl (typeName : String) (body : Body)
  | compileError (e : SynError)
  deriving DecidableEq

/-- The source's `derive_named_fields` (src/lib.rs lines 196-243): per
field, parse its options in the named-field context, resolve the label from
the alias, then emit the builder call selected by the print type (nothing
for skip). -/
def derive_named_fields_go (use_self : Bool) :
    List NamedField → Except SynError (List FieldFrag)
  | [] => .ok []
  | field :: rest =>
      match parse_options field.attrs .namedField with
      | .error e => .error e
      | .ok options =>
          let name_str := options.aliasName.getD field.ident
          let ref : FieldRef :=
            if use_self then .selfNamed field.ident else .boundNamed field.ident
          let frags : List FieldFrag :=
            match options.print_type with
            | .normal => [.normalNamed name_str ref]
            | .placeholder p => [.placeholderNamed name_str p]
            | .format fmt => [.fmtNamed name_str fmt ref]
            | .custom fn => [.customNamed name_str fn ref]
            | .skip => []
          match derive_named_fields_go use_self rest with
          | .error e => .error e
          | .ok restFrags => .ok (frags ++ restFrags)

/-- Entry point matching the source's argument order. -/
def derive_named_fields (fields : List NamedField) (use_self : Bool) :
    Except SynError (List FieldFrag) :=
  derive_named_fields_go use_self fields

/-- The source's `derive_unnamed_fields` (src/lib.rs lines 245-290), with
the running index made explicit. -/
def derive_unnamed_fields_go (use_self : Bool) (i : Nat) :
    List UnnamedField → Except SynError (List FieldFrag)
  | [] => .ok []
  | field :: rest =>
      match parse_options field.attrs .unnamedField with
      | .error e => .error e
      | .ok options =>
          let ref : FieldRef := if use_self then .selfIndex i else .boundIndex i
          let frags : List FieldFrag :=
            match options.print_type with
            | .normal => [.normalPos ref]
            | .placeholder p => [.placeholderPos p]
            | .format fmt => [.fmtPos fmt ref]
            | .custom fn => [.customPos fn ref]
            | .skip => []
          match derive_unnamed_fields_go use_self (i + 1) rest with
          | .error e => .error e
          | .ok restFrags => .ok (frags ++ restFrags)

/-- Entry point matching the source's argument order. -/
def derive_unnamed_fields (fields : List UnnamedField) (use_self : Bool) :
    Except SynError (List FieldFrag) :=
  derive_unnamed_fields_go use_self 0 fields

/-- Named half of the source's `derive_match_list`: bind every field, but
explicitly discard fields marked skip. -/
def derive_match_list_named : List NamedField → Except SynError (List PatEntry)
  | [] => .ok []
  | field :: rest =>
      match parse_options field.attrs .namedField with
      | .error e => .error e
      | .ok options =>
          let entry : PatEntry :=
            match options.print_type with
            | .skip => .discardNamed field.ident
            | _ => .bindNamed field.ident
          match derive_match_list_named rest with
          | .error e => .error e
          | .ok restEntries => .ok (entry :: restEntries)

/-- Positional half of the source's `derive_match_list`. -/
def derive_match_list_unnamed (i : Nat) :
    List UnnamedField → Except SynError (List PatEntry)
  | [] => .ok []
  | field :: rest =>
      match parse_options field.attrs .unnamedField with
      | .error e => .error e
      | .ok options =>
          let entry : PatEntry :=
            match options.print_type with
            | .skip => .discardPos
            | _ => .bindPos i
          match derive_match_list_unnamed (i + 1) rest with
          | .error e => .error e
          | .ok restEntries => .ok (entry :: restEntries)

/-- The source's `derive_match_list` (src/lib.rs lines 164-194). -/
def derive_match_list (fields : RFields) : Except SynError MatchList :=
  match fields with
  | .named fields =>
      (match derive_match_list_named fields with
       | .error e => .error e
       | .ok entries => .ok (.braced entries))
  | .unnamed fields =>
      (match derive_match_list_unnamed 0 fields with
       | .error e => .error e
       | .ok entries => .ok (.parens entries))
  | .unit => .ok .unitPat

/-- The source's `derive_variant` (src/lib.rs lines 124-146): build the
destructuring pattern first, then the arm for the case's field shape; a
unit case becomes a bare `write!(f, display_name)` arm. -/
def derive_variant (name : String) (display_name : String) (fields : RFields) :
    Except SynError VariantArm :=
  match derive_match_list fields with
  | .error e => .error e
  | .ok match_list =>
      match fields with
      | .named fields =>
          (match derive_named_fields fields false with
           | .error e => .error e
           | .ok frags => .ok (.structArm name match_list display_name frags))
      | .unnamed fields =>
          (match derive_unnamed_fields fields false with
           | .error e => .error e
           | .ok frags => .ok (.tupleArm name match_list display_name frags))
      | .unit => .ok (.writeArm name display_name)

/-- The source's `skip_variant` (src/lib.rs lines 148-162): never inspects
the case's fields beyond their shape, and never parses field attributes. -/
def skip_variant (name : String) (display_name : String) (fields : RFields) :
    Except SynError VariantArm :=
  match fields with
  | .named _ => .ok (.structSkipArm name display_name)
  | .unnamed _ => .ok (.tupleSkipArm name display_name)
  | .unit => .ok (.writeArm name display_name)

/-- The source's `derive_enum_variants` (src/lib.rs lines 96-122): per
case, parse options in the union-case context, resolve the display name
from the alias, then dispatch on the print type; any print type other than
normal or skip is the `Internal error` branch. -/
def derive_enum_variants : List RVariant → Except SynError (List VariantArm)
  | [] => .ok []
  | variant :: rest =>
      match parse_options variant.attrs .enumVariant with
      | .error e => .error e
      | .ok options =>
          let display_name := options.aliasName.getD variant.ident
          let armRes : Except SynError VariantArm :=
            match options.print_type with
            | .normal => derive_variant variant.ident display_name variant.fields
            | .skip => skip_variant variant.ident display_name variant.fields
            | _ => .error ⟨.variantSpan variant.ident, "Internal error"⟩
          match armRes with
          | .error e => .error e
          | .ok arm =>
              match derive_enum_variants rest with
              | .error e => .error e
              | .ok arms => .ok (arm :: arms)

/-- The source's `derive_struct` (src/lib.rs lines 56-78). -/
def derive_struct (display_name : String) (data : DataStruct) :
    Except SynError Body :=
  match data.fields with
  | .named fields =>
      (match derive_named_fields fields true with
       | .error e => .error e
       | .ok frags => .ok (.debugStructBody display_name frags))
  | .unnamed fields =>
      (match derive_unnamed_fields fields true with
       | .error e => .error e
       | .ok frags => .ok (.debugTupleBody display_name frags))
  | .unit => .ok (.debugStructBody display_name [])

/-- The source's `derive_enum` (src/lib.rs lines 80-94): a caseless union
becomes an explicit unreachable-hint body; otherwise a match over self. -/
def derive_enum (data : DataEnum) : Except SynError Body :=
  match data.variants with
  | [] => .ok .unreachableUnchecked
  | vs =>
      match derive_enum_variants vs with
      | .error e => .error e
      | .ok arms => .ok (.matchBody arms)

/-- The source's `derive_debug_impl` (src/lib.rs lines 20-54): parse the
item-level options, resolve the display name, dispatch on the structural
kind (the untagged-union kind is a hard error), and wrap the body into the
impl, or turn any error into a compile error with no impl. -/
def derive_debug_impl (item : DeriveInput) : Output :=
  match parse_options item.attrs .deriveItem with
  | .error e => .compileError e
  | .ok options =>
      let display_name := options.aliasName.getD item.ident
      let res : Except SynError Body :=
        match item.data with
        | .struct data => derive_struct display_name data
        | .enum data => derive_enum data
        | .union => .error ⟨.unionToken, "#[derive(Dbg)] not supported on unions"⟩
      match res with
      | .ok body => .debugImpl item.ident body
      | .error e => .compileError e

/-- Left brace character, kept symbolic for the rendering semantics. -/
def lbrace : Char := Char.ofNat 123

/-- Right brace character. -/
def rbrace : Char := Char.ofNat 125

/-- Rust format-template escape semantics for a template used with no
substitution arguments (the shape `format_args!(text)` and
`write!(f, text)` take in the generated code): a doubled brace renders as
one literal brace; every other character renders verbatim. -/
def fmtUnescape : List Char → List Char
  | [] => []
  | c1 :: c2 :: rest =>
      if c1 = lbrace ∧ c2 = lbrace then lbrace :: fmtUnescape rest
      else if c1 = rbrace ∧ c2 = rbrace then rbrace :: fmtUnescape rest
      else c1 :: fmtUnescape (c2 :: rest)
  | [c] => [c]

/-- String version of the argument-free template semantics. -/
def fmtTemplate0 (s : String) : String := String.mk (fmtUnescape s.toList)

/-- One-argument format-template semantics, for `fmt` templates applied to
a field value: the first empty brace pair substitutes the argument, doubled
braces escape, the rest is verbatim. -/
def fmtSubst1 (v : String) : List Char → List Char
  | [] => []
  | c1 :: c2 :: rest =>
      if c1 = lbrace ∧ c2 = lbrace then lbrace :: fmtSubst1 v rest
      else if c1 = rbrace ∧ c2 = rbrace then rbrace :: fmtSubst1 v rest
      else if c1 = lbrace ∧ c2 = rbrace then v.toList ++ fmtUnescape rest
      else c1 :: fmtSubst1 v (c2 :: rest)
  | [c] => [c]

/-- String version of the one-argument template semantics. -/
def fmtTemplate1 (s : String) (v : String) : String :=
  String.mk (fmtSubst1 v s.toList)

/-- Runtime rendering of one emitted builder call: `env` gives the debug
rendering of the value each field reference denotes, and `custom` gives the
display rendering of the result of invoking a named formatter function on a
field's value. -/
def renderFrag (env : FieldRef → String) (custom : RPath → String → String) :
    FieldFrag → String
  | .normalNamed label ref => label ++ ": " ++ env ref
  | .placeholderNamed label text => label ++ ": " ++ fmtTemplate0 text
  | .fmtNamed label tmpl ref => label ++ ": " ++ fmtTemplate1 tmpl (env ref)
  | .customNamed label fn ref => label ++ ": " ++ custom fn (env ref)
  | .normalPos ref => env ref
  | .placeholderPos text => fmtTemplate0 text
  | .fmtPos tmpl ref => fmtTemplate1 tmpl (env ref)
  | .customPos fn ref => custom fn (env ref)

/-- Compact-mode rendering of a `debug_struct` builder run: only the name
when no fields were contributed, otherwise the name followed by the braced,
comma-separated field list (the brace characters are `lbrace`/`rbrace`). -/
def renderStructBuilder (display : String) (parts : List String) : String :=
  match parts with
  | [] => display
  | _ => display ++ " " ++ String.singleton lbrace ++ " " ++
      String.intercalate ", " parts ++ " " ++ String.singleton rbrace

/-- Compact-mode rendering of a `debug_tuple` builder run. -/
def renderTupleBuilder (display : String) (parts : List String) : String :=
  match parts with
  | [] => display
  | _ => display ++ "(" ++ String.intercalate ", " parts ++ ")"

/-- Runtime rendering of one match arm's right-hand side, compact mode: the
`write!` arm runs its string through the format-template semantics, while
the builder arms pass the display name through as inert data. -/
def renderArm (env : FieldRef → String) (custom : RPath → String → String) :
    VariantArm → String
  | .structArm _ _ display frags =>
      renderStructBuilder display (frags.map (renderFrag env custom))
  | .tupleArm _ _ display frags =>
      renderTupleBuilder display (frags.map (renderFrag env custom))
  | .writeArm _ fmtString => fmtTemplate0 fmtString
  | .structSkipArm _ display => renderStructBuilder display []
  | .tupleSkipArm _ display => renderTupleBuilder display []

/-- The display-name slot of a generated struct body: the string passed to
`debug_struct` or `debug_tuple`. -/
def Body.displayOf : Body → String
  | .debugStructBody display _ => display
  | .debugTupleBody display _ => display
  | _ => ""

/-- The display-name slot of a match arm: the string passed to the debug
builder, or the format string passed to `write!` for a unit case. -/
def VariantArm.displayOf : VariantArm → String
  | .structArm _ _ display _ => display
  | .tupleArm _ _ display _ => display
  | .writeArm _ fmtString => fmtString
  | .structSkipArm _ display => display
  | .tupleSkipArm _ display => display

/-- Claim-side transcription of the validity table: an annotation-list
element is valid when its key is recognized, the key is permitted in the
context, and its value has the right literal kind.  This transcribes the
claimed failure enumeration (unrecognized key; skip on the top-level item;
alias on a positional field; placeholder, fmt or formatter outside fields;
wrong literal kind) and coincides with the accepting guards of the source's
match arms. -/
def validFor (target : OptionsTarget) (m : NestedMeta) : Bool :=
  match m with
  | .metaPath k => k == "skip" && target != .deriveItem
  | .metaNameValue k (.str _) =>
      (k == "placeholder" && (target == .namedField || target == .unnamedField)) ||
      (k == "alias" && target != .unnamedField) ||
      (k == "fmt" && (target == .namedField || target == .unnamedField)) ||
      (k == "formatter" && (target == .namedField || target == .unnamedField))
  | _ => false

/-- The one failure source beyond the validity table: a formatter value
that does not parse as a path. -/
def formatterParseFails (m : NestedMeta) : Bool :=
  match m with
  | .metaNameValue k (.str v) =>
      k == "formatter" &&
        (match parsePath v with | .ok _ => false | .error _ => true)
  | _ => false

/-- A display name containing a doubled (escaped) brace: the format-template
interpretation and verbatim printing differ on it. -/
def braceyName : String := String.mk ['A', lbrace, lbrace, 'B']

lemma parsePath_error_message {s msg : String} (h : parsePath s = .error msg) :
    msg = "expected identifier" ∨ msg = "unexpected token" := by
  unfold parsePath at h
  split at h
  · exact Or.inl (Except.error.inj h).symm
  · split at h
    · exact Or.inr (Except.error.inj h).symm
    · exact absurd h (by simp)

lemma parseNestedOne_invalid {target : OptionsTarget} {m : NestedMeta}
    (res : FieldOutputOptions) (h : validFor target m = false) :
    parseNestedOne target res m = .error ⟨.nested m, "invalid option"⟩ := by
  cases m with
  | metaPath k =>
      simp only [validFor, Bool.and_eq_false_iff, beq_eq_false_iff_ne,
        bne_eq_false_iff_eq, ne_eq] at h
      simp only [parseNestedOne]
      split
      · rename_i hc
        rcases h with h | h
        · exact absurd hc.1 h
        · exact absurd h hc.2
      · rfl
  | metaList k => rfl
  | lit l => rfl
  | metaNameValue k lit =>
      cases lit with
      | other d => rfl
      | str v =>
          simp only [validFor, Bool.or_eq_false_iff, Bool.and_eq_false_iff,
            beq_eq_false_iff_ne, bne_eq_false_iff_eq, ne_eq] at h
          simp only [parseNestedOne]
          repeat' split
          all_goals try rfl
          all_goals tauto

lemma parseNestedOne_skip {target : OptionsTarget} (res : FieldOutputOptions)
    (h : target ≠ .deriveItem) :
    parseNestedOne target res (.metaPath "skip") =
      .ok ⟨.skip, res.aliasName⟩ := by
  simp only [parseNestedOne]
  rw [if_pos ⟨trivial, h⟩]

lemma parseNestedOne_placeholder {target : OptionsTarget} {v : String}
    (res : FieldOutputOptions)
    (h : target = .namedField ∨ target = .unnamedField) :
    parseNestedOne target res (.metaNameValue "placeholder" (.str v)) =
      .ok ⟨.placeholder v, res.aliasName⟩ := by
  simp only [parseNestedOne]
  rw [if_pos ⟨trivial, h⟩]

lemma parseNestedOne_alias {target : OptionsTarget} {v : String}
    (res : FieldOutputOptions) (h : target ≠ .unnamedField) :
    parseNestedOne target res (.metaNameValue "alias" (.str v)) =
      .ok ⟨res.print_type, some v⟩ := by
  simp only [parseNestedOne]
  rw [if_neg (fun hc => absurd hc.1 (by decide)), if_pos ⟨trivial, h⟩]

lemma parseNestedOne_fmt {target : OptionsTarget} {v : String}
    (res : FieldOutputOptions)
    (h : target = .namedField ∨ target = .unnamedField) :
    parseNestedOne target res (.metaNameValue "fmt" (.str v)) =
      .ok ⟨.format v, res.aliasName⟩ := by
  simp only [parseNestedOne]
  rw [if_neg (fun hc => absurd hc.1 (by decide)),
    if_neg (fun hc => absurd hc.1 (by decide)), if_pos ⟨trivial, h⟩]

lemma parseNestedOne_formatter_ok {target : OptionsTarget} {v : String}
    {p : RPath} (res : FieldOutputOptions)
    (h : target = .namedField ∨ target = .unnamedField)
    (hp : parsePath v = .ok p) :
    parseNestedOne target res (.metaNameValue "formatter" (.str v)) =
      .ok ⟨.custom p, res.aliasName⟩ := by
  simp only [parseNestedOne]
  rw [if_neg (fun hc => absurd hc.1 (by decide)),
    if_neg (fun hc => absurd hc.1 (by decide)),
    if_neg (fun hc => absurd hc.1 (by decide)), if_pos ⟨trivial, h⟩, hp]

lemma parseNestedOne_formatter_err {target : OptionsTarget} {v msg : String}
    (res : FieldOutputOptions)
    (h : target = .namedField ∨ target = .unnamedField)
    (hp : parsePath v = .error msg) :
    parseNestedOne target res (.metaNameValue "formatter" (.str v)) =
      .error ⟨.litStr v, msg⟩ := by
  simp only [parseNestedOne]
  rw [if_neg (fun hc => absurd hc.1 (by decide)),
    if_neg (fun hc => absurd hc.1 (by decide)),
    if_neg (fun hc => absurd hc.1 (by decide)), if_pos ⟨trivial, h⟩, hp]

lemma parseNestedOne_good_ok {target : OptionsTarget} {m : NestedMeta}
    (res : FieldOutputOptions) (hv : validFor target m = true)
    (hf : formatterParseFails m = false) :
    ∃ res', parseNestedOne target res m = .ok res' := by
  cases m with
  | metaPath k =>
      simp only [validFor, Bool.and_eq_true, beq_iff_eq, bne_iff_ne, ne_eq] at hv
      obtain ⟨hk, ht⟩ := hv
      subst hk
      exact ⟨_, parseNestedOne_skip res ht⟩
  | metaList k => exact absurd hv (by simp [validFor])
  | lit l => exact absurd hv (by simp [validFor])
  | metaNameValue k lit =>
      cases lit with
      | other d => exact absurd hv (by simp [validFor])
      | str v =>
          simp only [validFor, Bool.or_eq_true, Bool.and_eq_true, beq_iff_eq,
            bne_iff_ne, ne_eq] at hv
          rcases hv with ((⟨hk, hc⟩ | ⟨hk, hc⟩) | ⟨hk, hc⟩) | ⟨hk, hc⟩
          · subst hk
            exact ⟨_, parseNestedOne_placeholder res hc⟩
          · subst hk
            exact ⟨_, parseNestedOne_alias res hc⟩
          · subst hk
            exact ⟨_, parseNestedOne_fmt res hc⟩
          · subst hk
            simp only [formatterParseFails, beq_self_eq_true,
              Bool.true_and] at hf
            cases hp : parsePath v with
            | ok p => exact ⟨_, parseNestedOne_formatter_ok res hc hp⟩
            | error msg => rw [hp] at hf; exact absurd hf (by simp)

lemma parseNestedOne_bad_error {target : OptionsTarget} {m : NestedMeta}
    (res : FieldOutputOptions)
    (h : validFor target m = false ∨ formatterParseFails m = true) :
    ∃ e, parseNestedOne target res m = .error e := by
  cases hv : validFor target m with
  | false => exact ⟨_, parseNestedOne_invalid res hv⟩
  | true =>
      rcases h with h | h
      · rw [hv] at h
        exact absurd h (by simp)
      · cases m with
        | metaPath k => exact absurd h (by simp [formatterParseFails])
        | metaList k => exact absurd h (by simp [formatterParseFails])
        | lit l => exact absurd h (by simp [formatterParseFails])
        | metaNameValue k lit =>
            cases lit with
            | other d => exact absurd h (by simp [formatterParseFails])
            | str v =>
                simp only [formatterParseFails, Bool.and_eq_true,
                  beq_iff_eq] at h
                obtain ⟨hk, hfail⟩ := h
                subst hk
                cases hp : parsePath v with
                | ok p => rw [hp] at hfail; exact absurd hfail (by simp)
                | error msg =>
                    simp only [validFor, Bool.or_eq_true, Bool.and_eq_true,
                      beq_iff_eq, bne_iff_ne, ne_eq] at hv
                    rcases hv with ((⟨hk, _⟩ | ⟨hk, _⟩) | ⟨hk, _⟩) | ⟨_, hc⟩
                    · exact absurd hk (by decide)
                    · exact absurd hk (by decide)
                    · exact absurd hk (by decide)
                    · exact ⟨_, parseNestedOne_formatter_err res hc hp⟩

lemma parseNestedList_cons (target : OptionsTarget)
    (res : FieldOutputOptions) (m : NestedMeta) (rest : List NestedMeta) :
    parseNestedList target res (m :: rest) =
      match parseNestedOne target res m with
      | .ok r => parseNestedList target r rest
      | .error e => .error e := rfl

lemma parseNestedList_append (target : OptionsTarget)
    (res : FieldOutputOptions) (l1 l2 : List NestedMeta) :
    parseNestedList target res (l1 ++ l2) =
      (parseNestedList target res l1).bind
        (fun r => parseNestedList target r l2) := by
  induction l1 generalizing res with
  | nil => rfl
  | cons m l1 ih =>
      rw [List.cons_append, parseNestedList_cons, parseNestedList_cons]
      cases h : parseNestedOne target res m with
      | error e => rfl
      | ok r => exact ih r

lemma parseNestedList_error_iff (target : OptionsTarget)
    (res : FieldOutputOptions) (l : List NestedMeta) :
    (∃ e, parseNestedList target res l = .error e) ↔
      ∃ m ∈ l, validFor target m = false ∨ formatterParseFails m = true := by
  induction l generalizing res with
  | nil => simp [parseNestedList]
  | cons m rest ih =>
      constructor
      · rintro ⟨e, he⟩
        cases hv : validFor target m with
        | false => exact ⟨m, List.mem_cons_self m rest, Or.inl hv⟩
        | true =>
            cases hf : formatterParseFails m with
            | true => exact ⟨m, List.mem_cons_self m rest, Or.inr hf⟩
            | false =>
                obtain ⟨res', hres'⟩ := parseNestedOne_good_ok res hv hf
                rw [parseNestedList_cons, hres'] at he
                obtain ⟨m', hm', hbad'⟩ := (ih res').mp ⟨e, he⟩
                exact ⟨m', List.mem_cons_of_mem m hm', hbad'⟩
      · rintro ⟨m', hm', hbad⟩
        rcases List.mem_cons.mp hm' with hm' | hm'
        · subst hm'
          obtain ⟨e, he⟩ := parseNestedOne_bad_error res hbad
          refine ⟨e, ?_⟩
          rw [parseNestedList_cons, he]
        · cases hstep : parseNestedOne target res m with
          | error e =>
              refine ⟨e, ?_⟩
              rw [parseNestedList_cons, hstep]
          | ok res' =>
              obtain ⟨e, he⟩ := (ih res').mpr ⟨m', hm', hbad⟩
              refine ⟨e, ?_⟩
              rw [parseNestedList_cons, hstep]
              exact he

lemma parseNestedOne_error_not_internal {target : OptionsTarget}
    {res : FieldOutputOptions} {m : NestedMeta} {e : SynError}
    (h : parseNestedOne target res m = .error e) :
    e.message ≠ "Internal error" := by
  cases m with
  | metaPath k =>
      simp only [parseNestedOne] at h
      split at h
      · exact absurd h (by simp)
      · obtain rfl := (Except.error.inj h).symm
        exact (by decide : ("invalid option" : String) ≠ "Internal error")
  | metaList k =>
      simp only [parseNestedOne] at h
      obtain rfl := (Except.error.inj h).symm
      exact (by decide : ("invalid option" : String) ≠ "Internal error")
  | lit l =>
      simp only [parseNestedOne] at h
      obtain rfl := (Except.error.inj h).symm
      exact (by decide : ("invalid option" : String) ≠ "Internal error")
  | metaNameValue k lit =>
      cases lit with
      | other d =>
          simp only [parseNestedOne] at h
          obtain rfl := (Except.error.inj h).symm
          exact (by decide : ("invalid option" : String) ≠ "Internal error")
      | str v =>
          simp only [parseNestedOne] at h
          split at h
          · exact absurd h (by simp)
          · split at h
            · exact absurd h (by simp)
            · split at h
              · exact absurd h (by simp)
              · split at h
                · split at h
                  · exact absurd h (by simp)
                  · rename_i msg hmsg
                    obtain rfl := (Except.error.inj h).symm
                    rcases parsePath_error_message hmsg with rfl | rfl
                    · exact (by decide :
                        ("expected identifier" : String) ≠ "Internal error")
                    · exact (by decide :
                        ("unexpected token" : String) ≠ "Internal error")
                · obtain rfl := (Except.error.inj h).symm
                  exact (by decide : ("invalid option" : String) ≠ "Internal error")

lemma parseNestedList_error_not_internal {target : OptionsTarget}
    {res : FieldOutputOptions} {l : List NestedMeta} {e : SynError}
    (h : parseNestedList target res l = .error e) :
    e.message ≠ "Internal error" := by
  induction l generalizing res with
  | nil => exact absurd h (by simp [parseNestedList])
  | cons m rest ih =>
      rw [parseNestedList_cons] at h
      cases hs : parseNestedOne target res m with
      | error e' =>
          rw [hs] at h
          obtain rfl := Except.error.inj h
          exact parseNestedOne_error_not_internal hs
      | ok res' =>
          rw [hs] at h
          exact ih h

lemma parseOptionsLoop_error_not_internal {target : OptionsTarget}
    {res : FieldOutputOptions} {attrs : List RAttribute} {e : SynError}
    (h : parseOptionsLoop target res attrs = .error e) :
    e.message ≠ "Internal error" := by
  induction attrs generalizing res with
  | nil => exact absurd h (by simp [parseOptionsLoop])
  | cons a rest ih =>
      simp only [parseOptionsLoop] at h
      split at h
      · split at h
        · split at h
          · exact ih h
          · rename_i e' he'
            obtain rfl := Except.error.inj h
            exact parseNestedList_error_not_internal he'
        · obtain rfl := (Except.error.inj h).symm
          exact (by decide :
            ("invalid #[dbg(...)] attribute" : String) ≠ "Internal error")
      · exact ih h

lemma parse_options_error_not_internal {target : OptionsTarget}
    {attrs : List RAttribute} {e : SynError}
    (h : parse_options attrs target = .error e) :
    e.message ≠ "Internal error" :=
  parseOptionsLoop_error_not_internal h

lemma parseNestedOne_enumVariant_print {res res' : FieldOutputOptions}
    {m : NestedMeta} (h : parseNestedOne .enumVariant res m = .ok res')
    (hres : res.print_type = .normal ∨ res.print_type = .skip) :
    res'.print_type = .normal ∨ res'.print_type = .skip := by
  cases m with
  | metaPath k =>
      simp only [parseNestedOne] at h
      split at h
      · obtain rfl := (Except.ok.inj h).symm
        exact Or.inr rfl
      · exact absurd h (by simp)
  | metaList k => exact absurd h (by simp [parseNestedOne])
  | lit l => exact absurd h (by simp [parseNestedOne])
  | metaNameValue k lit =>
      cases lit with
      | other d => exact absurd h (by simp [parseNestedOne])
      | str v =>
          simp only [parseNestedOne] at h
          split at h
          · rename_i hc
            rcases hc.2 with hbad | hbad <;> exact absurd hbad (by decide)
          · split at h
            · obtain rfl := (Except.ok.inj h).symm
              exact hres
            · split at h
              · rename_i hc
                rcases hc.2 with hbad | hbad <;> exact absurd hbad (by decide)
              · split at h
                · rename_i hc
                  rcases hc.2 with hbad | hbad <;> exact absurd hbad (by decide)
                · exact absurd h (by simp)

lemma parseNestedList_enumVariant_print {res res' : FieldOutputOptions}
    {l : List NestedMeta} (h : parseNestedList .enumVariant res l = .ok res')
    (hres : res.print_type = .normal ∨ res.print_type = .skip) :
    res'.print_type = .normal ∨ res'.print_type = .skip := by
  induction l generalizing res with
  | nil =>
      simp only [parseNestedList] at h
      obtain rfl := Except.ok.inj h
      exact hres
  | cons m rest ih =>
      rw [parseNestedList_cons] at h
      cases hs : parseNestedOne .enumVariant res m with
      | error e' => rw [hs] at h; exact absurd h (by simp)
      | ok mid =>
          rw [hs] at h
          exact ih h (parseNestedOne_enumVariant_print hs hres)

lemma parseOptionsLoop_enumVariant_print {res res' : FieldOutputOptions}
    {attrs : List RAttribute}
    (h : parseOptionsLoop .enumVariant res attrs = .ok res')
    (hres : res.print_type = .normal ∨ res.print_type = .skip) :
    res'.print_type = .normal ∨ res'.print_type = .skip := by
  induction attrs generalizing res with
  | nil =>
      simp only [parseOptionsLoop] at h
      obtain rfl := Except.ok.inj h
      exact hres
  | cons a rest ih =>
      simp only [parseOptionsLoop] at h
      split at h
      · split at h
        · split at h
          · rename_i mid hmid
            exact ih h (parseNestedList_enumVariant_print hmid hres)
          · exact absurd h (by simp)
        · exact absurd h (by simp)
      · exact ih h hres

lemma parse_options_enumVariant_print {attrs : List RAttribute}
    {res : FieldOutputOptions}
    (h : parse_options attrs .enumVariant = .ok res) :
    res.print_type = .normal ∨ res.print_type = .skip :=
  parseOptionsLoop_enumVariant_print h (Or.inl rfl)

lemma skip_variant_ok (name display_name : String) (fields : RFields) :
    ∃ arm, skip_variant name display_name fields = .ok arm := by
  cases fields <;> exact ⟨_, rfl⟩

lemma exceptBind_ok {ε α β : Type} (a : α) (f : α → Except ε β) :
    (Except.ok a).bind f = f a := rfl

lemma parseNestedList_singleton (target : OptionsTarget)
    (res : FieldOutputOptions) (m : NestedMeta) :
    parseNestedList target res [m] = parseNestedOne target res m := by
  rw [parseNestedList_cons]
  cases parseNestedOne target res m <;> rfl

lemma derive_struct_display {display : String} {d : DataStruct} {body : Body}
    (h : derive_struct display d = .ok body) : body.displayOf = display := by
  unfold derive_struct at h
  split at h
  · split at h
    · exact absurd h (by simp)
    · obtain rfl := (Except.ok.inj h).symm
      rfl
  · split at h
    · exact absurd h (by simp)
    · obtain rfl := (Except.ok.inj h).symm
      rfl
  · obtain rfl := (Except.ok.inj h).symm
    rfl

lemma derive_variant_display {n d : String} {f : RFields} {arm : VariantArm}
    (h : derive_variant n d f = .ok arm) : arm.displayOf = d := by
  unfold derive_variant at h
  split at h
  · exact absurd h (by simp)
  · split at h
    · split at h
      · exact absurd h (by simp)
      · obtain rfl := (Except.ok.inj h).symm
        rfl
    · split at h
      · exact absurd h (by simp)
      · obtain rfl := (Except.ok.inj h).symm
        rfl
    · obtain rfl := (Except.ok.inj h).symm
      rfl

lemma skip_variant_display {n d : String} {f : RFields} {arm : VariantArm}
    (h : skip_variant n d f = .ok arm) : arm.displayOf = d := by
  unfold skip_variant at h
  split at h <;> (obtain rfl := (Except.ok.inj h).symm; rfl)

lemma derive_named_fields_go_error_not_internal {u : Bool}
    {l : List NamedField} {e : SynError}
    (h : derive_named_fields_go u l = .error e) :
    e.message ≠ "Internal error" := by
  induction l with
  | nil => exact absurd h (by simp [derive_named_fields_go])
  | cons f rest ih =>
      simp only [derive_named_fields_go] at h
      split at h
      · rename_i e' hparse
        obtain rfl := Except.error.inj h
        exact parse_options_error_not_internal hparse
      · split at h
        · rename_i e' hrec
          obtain rfl := Except.error.inj h
          exact ih hrec
        · exact absurd h (by simp)

lemma derive_unnamed_fields_go_error_not_internal {u : Bool} {i : Nat}
    {l : List UnnamedField} {e : SynError}
    (h : derive_unnamed_fields_go u i l = .error e) :
    e.message ≠ "Internal error" := by
  induction l generalizing i with
  | nil => exact absurd h (by simp [derive_unnamed_fields_go])
  | cons f rest ih =>
      simp only [derive_unnamed_fields_go] at h
      split at h
      · rename_i e' hparse
        obtain rfl := Except.error.inj h
        exact parse_options_error_not_internal hparse
      · split at h
        · rename_i e' hrec
          obtain rfl := Except.error.inj h
          exact ih hrec
        · exact absurd h (by simp)

lemma derive_match_list_named_error_not_internal {l : List NamedField}
    {e : SynError} (h : derive_match_list_named l = .error e) :
    e.message ≠ "Internal error" := by
  induction l with
  | nil => exact absurd h (by simp [derive_match_list_named])
  | cons f rest ih =>
      simp only [derive_match_list_named] at h
      split at h
      · rename_i e' hparse
        obtain rfl := Except.error.inj h
        exact parse_options_error_not_internal hparse
      · split at h
        · rename_i e' hrec
          obtain rfl := Except.error.inj h
          exact ih hrec
        · exact absurd h (by simp)

lemma derive_match_list_unnamed_error_not_internal {i : Nat}
    {l : List UnnamedField} {e : SynError}
    (h : derive_match_list_unnamed i l = .error e) :
    e.message ≠ "Internal error" := by
  induction l generalizing i with
  | nil => exact absurd h (by simp [derive_match_list_unnamed])
  | cons f rest ih =>
      simp only [derive_match_list_unnamed] at h
      split at h
      · rename_i e' hparse
        obtain rfl := Except.error.inj h
        exact parse_options_error_not_internal hparse
      · split at h
        · rename_i e' hrec
          obtain rfl := Except.error.inj h
          exact ih hrec
        · exact absurd h (by simp)

lemma derive_match_list_error_not_internal {f : RFields} {e : SynError}
    (h : derive_match_list f = .error e) : e.message ≠ "Internal error" := by
  unfold derive_match_list at h
  split at h
  · split at h
    · rename_i e' h'
      obtain rfl := Except.error.inj h
      exact derive_match_list_named_error_not_internal h'
    · exact absurd h (by simp)
  · split at h
    · rename_i e' h'
      obtain rfl := Except.error.inj h
      exact derive_match_list_unnamed_error_not_internal h'
    · exact absurd h (by simp)
  · exact absurd h (by simp)

lemma derive_variant_error_not_internal {n d : String} {f : RFields}
    {e : SynError} (h : derive_variant n d f = .error e) :
    e.message ≠ "Internal error" := by
  unfold derive_variant at h
  split at h
  · rename_i e' h'
    obtain rfl := Except.error.inj h
    exact derive_match_list_error_not_internal h'
  · split at h
    · split at h
      · rename_i e' h'
        obtain rfl := Except.error.inj h
        exact derive_named_fields_go_error_not_internal h'
      · exact absurd h (by simp)
    · split at h
      · rename_i e' h'
        obtain rfl := Except.error.inj h
        exact derive_unnamed_fields_go_error_not_internal h'
      · exact absurd h (by simp)
    · exact absurd h (by simp)

lemma derive_enum_variants_error_not_internal {vs : List RVariant}
    {e : SynError} (h : derive_enum_variants vs = .error e) :
    e.message ≠ "Internal error" := by
  induction vs with
  | nil => exact absurd h (by simp [derive_enum_variants])
  | cons v rest ih =>
      simp only [derive_enum_variants] at h
      split at h
      · rename_i e' hp
        obtain rfl := Except.error.inj h
        exact parse_options_error_not_internal hp
      · rename_i o hp
        rcases parse_options_enumVariant_print hp with hn | hs
        · simp only [hn] at h
          split at h
          · rename_i e' hd
            obtain rfl := Except.error.inj h
            exact derive_variant_error_not_internal hd
          · split at h
            · rename_i e' hrec
              obtain rfl := Except.error.inj h
              exact ih hrec
            · exact absurd h (by simp)
        · simp only [hs] at h
          split at h
          · rename_i e' hd
            obtain ⟨arm, harm⟩ := skip_variant_ok v.ident
              (o.aliasName.getD v.ident) v.fields
            rw [harm] at hd
            exact absurd hd (by simp)
          · split at h
            · rename_i e' hrec
              obtain rfl := Except.error.inj h
              exact ih hrec
            · exact absurd h (by simp)

/-- Claim C1: a symbol-level alias annotation overrides the declared name
as the display name in every output shape produced by `derive_struct`
(brace form, paren form, and bare name, whose display slot `Body.displayOf`
extracts), and the same alias resolution is applied independently per union
case by `derive_enum_variants` (display slot `VariantArm.displayOf`). -/
theorem claim1_alias_overrides_name :
    (∀ (item : DeriveInput) (o : FieldOutputOptions) (a : String)
        (d : DataStruct) (body : Body),
        parse_options item.attrs .deriveItem = .ok o →
        o.aliasName = some a →
        item.data = .struct d →
        derive_struct a d = .ok body →
        derive_debug_impl item = .debugImpl item.ident body ∧
          body.displayOf = a) ∧
    ∀ (v : RVariant) (o : FieldOutputOptions) (a : String)
      (arms : List VariantArm),
      parse_options v.attrs .enumVariant = .ok o →
      o.aliasName = some a →
      derive_enum_variants [v] = .ok arms →
      ∀ arm ∈ arms, arm.displayOf = a := by
  constructor
  · intro item o a d body hp ha hdata hds
    refine ⟨?_, derive_struct_display hds⟩
    simp only [derive_debug_impl, hp, hdata, ha, Option.getD_some]
    rw [hds]
  · intro v o a arms hp ha harms
    rcases parse_options_enumVariant_print hp with hn | hs
    · simp only [derive_enum_variants, hp, ha, hn, Option.getD_some] at harms
      cases hd : derive_variant v.ident a v.fields with
      | error e =>
          simp only [hd] at harms
          exact absurd harms (by simp)
      | ok arm =>
          simp only [hd] at harms
          obtain rfl := Except.ok.inj harms
          intro arm' hmem
          obtain rfl := List.mem_singleton.mp hmem
          exact derive_variant_display hd
    · simp only [derive_enum_variants, hp, ha, hs, Option.getD_some] at harms
      cases hd : skip_variant v.ident a v.fields with
      | error e =>
          simp only [hd] at harms
          exact absurd harms (by simp)
      | ok arm =>
          simp only [hd] at harms
          obtain rfl := Except.ok.inj harms
          intro arm' hmem
          obtain rfl := List.mem_singleton.mp hmem
          exact skip_variant_display hd

/-- Witness for C1 at concrete inputs: a unit struct with alias `Bar` and a
unit union case with alias `W`. -/
theorem claim1_witness :
    (derive_debug_impl
        ⟨"Foo", [⟨"dbg", .list [.metaNameValue "alias" (.str "Bar")]⟩],
          .struct ⟨.unit⟩⟩ =
        .debugImpl "Foo" (.debugStructBody "Bar" []) ∧
      (Body.debugStructBody "Bar" []).displayOf = "Bar") ∧
    (VariantArm.writeArm "V" "W").displayOf = "W" := by
  constructor
  · exact claim1_alias_overrides_name.1
      ⟨"Foo", [⟨"dbg", .list [.metaNameValue "alias" (.str "Bar")]⟩],
        .struct ⟨.unit⟩⟩
      ⟨.normal, some "Bar"⟩ "Bar" ⟨.unit⟩ (.debugStructBody "Bar" [])
      (by decide) rfl rfl (by decide)
  · exact claim1_alias_overrides_name.2
      ⟨"V", [⟨"dbg", .list [.metaNameValue "alias" (.str "W")]⟩], .unit⟩
      ⟨.normal, some "W"⟩ "W" [.writeArm "V" "W"]
      (by decide) rfl (by decide) (.writeArm "V" "W") (by decide)

/-- Claim C2: a union case whose directive is skip is generated as the
discard-everything arm for its field shape, carrying only the display name
(alias or own name), succeeding for any fields and any field-level
annotations (they are never parsed), and its rendering is independent of
every field value and formatter. -/
theorem claim2_skip_union_case :
    ∀ (v : RVariant) (o : FieldOutputOptions),
      parse_options v.attrs .enumVariant = .ok o →
      o.print_type = .skip →
      ∃ arm, derive_enum_variants [v] = .ok [arm] ∧
        (match v.fields with
         | .named _ => arm = .structSkipArm v.ident (o.aliasName.getD v.ident)
         | .unnamed _ => arm = .tupleSkipArm v.ident (o.aliasName.getD v.ident)
         | .unit => arm = .writeArm v.ident (o.aliasName.getD v.ident)) ∧
        ∀ (env env' : FieldRef → String)
          (custom custom' : RPath → String → String),
          renderArm env custom arm = renderArm env' custom' arm := by
  intro v o hp hskip
  obtain ⟨arm, harm⟩ := skip_variant_ok v.ident (o.aliasName.getD v.ident)
    v.fields
  refine ⟨arm, ?_, ?_, ?_⟩
  · simp only [derive_enum_variants, hp, hskip, harm]
  · cases hf : v.fields with
    | named fs =>
        rw [hf] at harm
        simp only [skip_variant] at harm
        obtain rfl := Except.ok.inj harm
        rfl
    | unnamed fs =>
        rw [hf] at harm
        simp only [skip_variant] at harm
        obtain rfl := Except.ok.inj harm
        rfl
    | unit =>
        rw [hf] at harm
        simp only [skip_variant] at harm
        obtain rfl := Except.ok.inj harm
        rfl
  · cases hf : v.fields with
    | named fs =>
        rw [hf] at harm
        simp only [skip_variant] at harm
        obtain rfl := Except.ok.inj harm
        intro env env' custom custom'
        rfl
    | unnamed fs =>
        rw [hf] at harm
        simp only [skip_variant] at harm
        obtain rfl := Except.ok.inj harm
        intro env env' custom custom'
        rfl
    | unit =>
        rw [hf] at harm
        simp only [skip_variant] at harm
        obtain rfl := Except.ok.inj harm
        intro env env' custom custom'
        rfl

/-- Witness for C2: a skipped named-field case whose field carries an
annotation that would be invalid if parsed; generation still succeeds. -/
theorem claim2_witness :
    ∃ arm, derive_enum_variants
        [⟨"V", [⟨"dbg", .list [.metaPath "skip"]⟩],
          .named [⟨"x", [⟨"dbg", .list [.metaPath "bogus"]⟩]⟩]⟩] =
      .ok [arm] := by
  obtain ⟨arm, h1, _, _⟩ := claim2_skip_union_case
    ⟨"V", [⟨"dbg", .list [.metaPath "skip"]⟩],
      .named [⟨"x", [⟨"dbg", .list [.metaPath "bogus"]⟩]⟩]⟩
    ⟨.skip, none⟩ (by decide) rfl
  exact ⟨arm, h1⟩

/-- Claim C3: the option parser folds the annotation list in source order
(splitting is sequential composition), each of the mutually exclusive
rendering options (skip, placeholder, fmt, formatter) encountered last
silently overwrites the rendering slot while leaving the alias slot intact,
and an alias annotation updates only the alias slot, composing with
whatever rendering option is active. -/
theorem claim3_order_last_wins :
    (∀ (target : OptionsTarget) (res : FieldOutputOptions)
        (l1 l2 : List NestedMeta),
        parseNestedList target res (l1 ++ l2) =
          (parseNestedList target res l1).bind
            fun r => parseNestedList target r l2) ∧
    ∀ (target : OptionsTarget) (res out : FieldOutputOptions)
      (l : List NestedMeta),
      parseNestedList target res l = .ok out →
      (target ≠ .deriveItem →
        parseNestedList target res (l ++ [.metaPath "skip"]) =
          .ok ⟨.skip, out.aliasName⟩) ∧
      (∀ v, (target = .namedField ∨ target = .unnamedField) →
        parseNestedList target res
            (l ++ [.metaNameValue "placeholder" (.str v)]) =
          .ok ⟨.placeholder v, out.aliasName⟩) ∧
      (∀ v, (target = .namedField ∨ target = .unnamedField) →
        parseNestedList target res (l ++ [.metaNameValue "fmt" (.str v)]) =
          .ok ⟨.format v, out.aliasName⟩) ∧
      (∀ v p, (target = .namedField ∨ target = .unnamedField) →
        parsePath v = .ok p →
        parseNestedList target res
            (l ++ [.metaNameValue "formatter" (.str v)]) =
          .ok ⟨.custom p, out.aliasName⟩) ∧
      (∀ v, target ≠ .unnamedField →
        parseNestedList target res (l ++ [.metaNameValue "alias" (.str v)]) =
          .ok ⟨out.print_type, some v⟩) := by
  refine ⟨parseNestedList_append, ?_⟩
  intro target res out l hout
  refine ⟨?_, ?_, ?_, ?_, ?_⟩
  · intro htarget
    rw [parseNestedList_append, hout, exceptBind_ok,
      parseNestedList_singleton, parseNestedOne_skip out htarget]
  · intro v hctx
    rw [parseNestedList_append, hout, exceptBind_ok,
      parseNestedList_singleton, parseNestedOne_placeholder out hctx]
  · intro v hctx
    rw [parseNestedList_append, hout, exceptBind_ok,
      parseNestedList_singleton, parseNestedOne_fmt out hctx]
  · intro v p hctx hp
    rw [parseNestedList_append, hout, exceptBind_ok,
      parseNestedList_singleton, parseNestedOne_formatter_ok out hctx hp]
  · intro v htarget
    rw [parseNestedList_append, hout, exceptBind_ok,
      parseNestedList_singleton, parseNestedOne_alias out htarget]

/-- Witness for C3: a later skip overwrites an earlier placeholder, and an
alias after a skip composes with it. -/
theorem claim3_witness :
    parseNestedList .namedField ⟨.normal, none⟩
        ([.metaNameValue "placeholder" (.str "x")] ++ [.metaPath "skip"]) =
      .ok ⟨.skip, none⟩ ∧
    parseNestedList .namedField ⟨.normal, none⟩
        ([.metaPath "skip"] ++ [.metaNameValue "alias" (.str "A")]) =
      .ok ⟨.skip, some "A"⟩ := by
  constructor
  · exact (claim3_order_last_wins.2 .namedField ⟨.normal, none⟩
      ⟨.placeholder "x", none⟩ [.metaNameValue "placeholder" (.str "x")]
      (by decide)).1 (by decide)
  · exact (claim3_order_last_wins.2 .namedField ⟨.normal, none⟩
      ⟨.skip, none⟩ [.metaPath "skip"] (by decide)).2.2.2.2 "A" (by decide)

/-- Counterexample to C4 as stated: the annotation list containing only the
element `formatter = "not a path"` is valid for a named field under the
claim's own enumeration (recognized key, permitted context, string value),
yet the option parser fails on it, so "fails exactly when an unrecognized
key, a disallowed context, or a wrong literal kind is met" is false. -/
theorem claim4_counterexample :
    ¬ ((∃ e, parseNestedList .namedField ⟨.normal, none⟩
          [.metaNameValue "formatter" (.str "not a path")] = .error e) ↔
        ∃ m ∈ [NestedMeta.metaNameValue "formatter" (.str "not a path")],
          validFor .namedField m = false) := by
  intro hiff
  obtain ⟨m, hm, hbad⟩ := hiff.mp
    ⟨⟨.litStr "not a path", "unexpected token"⟩, by decide⟩
  obtain rfl := List.mem_singleton.mp hm
  exact absurd hbad (by decide)

/-- Claim C4 as amended: the option parser fails on an annotation list
exactly when some element is invalid per the validity table (unrecognized
key, recognized key in a disallowed context, or wrong literal kind) or is a
formatter annotation whose string value does not parse as a path. -/
theorem claim4_amended_error_iff :
    ∀ (target : OptionsTarget) (res : FieldOutputOptions)
      (l : List NestedMeta),
      (∃ e, parseNestedList target res l = .error e) ↔
        ∃ m ∈ l, validFor target m = false ∨ formatterParseFails m = true :=
  parseNestedList_error_iff

/-- Claim C5: a field whose directive is a placeholder is emitted as a
literal formatted fragment holding the placeholder text and no field
reference, in both the named-field and positional-field emitters, and its
rendering is independent of the environment giving field values. -/
theorem claim5_placeholder_ignores_value :
    (∀ (name : String) (attrs : List RAttribute) (o : FieldOutputOptions)
        (text : String) (use_self : Bool),
        parse_options attrs .namedField = .ok o →
        o.print_type = .placeholder text →
        derive_named_fields [⟨name, attrs⟩] use_self =
          .ok [.placeholderNamed (o.aliasName.getD name) text] ∧
        ∀ (env env' : FieldRef → String)
          (custom custom' : RPath → String → String),
          renderFrag env custom
              (.placeholderNamed (o.aliasName.getD name) text) =
            renderFrag env' custom'
              (.placeholderNamed (o.aliasName.getD name) text)) ∧
    ∀ (attrs : List RAttribute) (o : FieldOutputOptions) (text : String)
      (use_self : Bool),
      parse_options attrs .unnamedField = .ok o →
      o.print_type = .placeholder text →
      derive_unnamed_fields [⟨attrs⟩] use_self = .ok [.placeholderPos text] ∧
      ∀ (env env' : FieldRef → String)
        (custom custom' : RPath → String → String),
        renderFrag env custom (.placeholderPos text) =
          renderFrag env' custom' (.placeholderPos text) := by
  constructor
  · intro name attrs o text use_self hp hpt
    constructor
    · simp only [derive_named_fields, derive_named_fields_go, hp, hpt]
      rfl
    · intro env env' custom custom'
      rfl
  · intro attrs o text use_self hp hpt
    constructor
    · simp only [derive_unnamed_fields, derive_unnamed_fields_go, hp, hpt]
      rfl
    · intro env env' custom custom'
      rfl

/-- Witness for C5: a named field with placeholder text and a positional
field with placeholder text. -/
theorem claim5_witness :
    derive_named_fields
        [⟨"f", [⟨"dbg", .list [.metaNameValue "placeholder" (.str "...")]⟩]⟩]
        true =
      .ok [.placeholderNamed "f" "..."] ∧
    derive_unnamed_fields
        [⟨[⟨"dbg", .list [.metaNameValue "placeholder" (.str "abc")]⟩]⟩]
        false =
      .ok [.placeholderPos "abc"] := by
  constructor
  · exact (claim5_placeholder_ignores_value.1 "f"
      [⟨"dbg", .list [.metaNameValue "placeholder" (.str "...")]⟩]
      ⟨.placeholder "...", none⟩ "..." true (by decide) rfl).1
  · exact (claim5_placeholder_ignores_value.2
      [⟨"dbg", .list [.metaNameValue "placeholder" (.str "abc")]⟩]
      ⟨.placeholder "abc", none⟩ "abc" false (by decide) rfl).1

/-- Claim C6: a tagged union with zero cases is well-formed input and its
generated body is the explicit unreachable hint, not an omitted body or a
runtime error. -/
theorem claim6_empty_union_unreachable :
    ∀ data : DataEnum, data.variants = [] →
      derive_enum data = .ok .unreachableUnchecked := by
  intro data h
  unfold derive_enum
  rw [h]

/-- Witness for C6: the empty union. -/
theorem claim6_witness :
    derive_enum ⟨[]⟩ = .ok .unreachableUnchecked :=
  claim6_empty_union_unreachable ⟨[]⟩ rfl

/-- Claim C7: an annotated item of the untagged-union structural kind
always produces a compile error and never a generated impl, and when the
item-level annotations themselves are well-formed the error is the one
naming the offending construct, anchored at the union keyword. -/
theorem claim7_untagged_union_error :
    ∀ item : DeriveInput, item.data = .union →
      (∃ e, derive_debug_impl item = .compileError e) ∧
      ∀ o, parse_options item.attrs .deriveItem = .ok o →
        derive_debug_impl item =
          .compileError ⟨.unionToken, "#[derive(Dbg)] not supported on unions"⟩ := by
  intro item hdata
  constructor
  · cases hp : parse_options item.attrs .deriveItem with
    | error e =>
        refine ⟨e, ?_⟩
        simp only [derive_debug_impl, hp]
    | ok o =>
        refine ⟨⟨.unionToken, "#[derive(Dbg)] not supported on unions"⟩, ?_⟩
        simp only [derive_debug_impl, hp, hdata]
  · intro o hp
    simp only [derive_debug_impl, hp, hdata]

/-- Witness for C7: a bare union item. -/
theorem claim7_witness :
    derive_debug_impl ⟨"U", [], .union⟩ =
      .compileError ⟨.unionToken, "#[derive(Dbg)] not supported on unions"⟩ :=
  (claim7_untagged_union_error ⟨"U", [], .union⟩ rfl).2 ⟨.normal, none⟩
    (by decide)

/-- Claim C8: a formatter annotation in a field context whose string value
does not parse as a path makes the option parser fail with the underlying
parse failure text, anchored at the formatter value literal. -/
theorem claim8_malformed_formatter :
    ∀ (target : OptionsTarget) (res : FieldOutputOptions) (v msg : String)
      (rest : List NestedMeta),
      (target = .namedField ∨ target = .unnamedField) →
      parsePath v = .error msg →
      parseNestedList target res
          (.metaNameValue "formatter" (.str v) :: rest) =
        .error ⟨.litStr v, msg⟩ := by
  intro target res v msg rest hctx hp
  rw [parseNestedList_cons, parseNestedOne_formatter_err res hctx hp]

/-- Witness for C8: the value `not a path` fails path parsing and the
failure text is propagated. -/
theorem claim8_witness :
    parseNestedList .namedField ⟨.normal, none⟩
        [.metaNameValue "formatter" (.str "not a path")] =
      .error ⟨.litStr "not a path", "unexpected token"⟩ :=
  claim8_malformed_formatter .namedField ⟨.normal, none⟩ "not a path"
    "unexpected token" [] (Or.inl rfl) (by decide)

/-- Claim C9: an annotation list that parses successfully in the union-case
context always yields a render-normally or omit directive (never
placeholder, template, or custom formatter), and consequently no error
produced by per-variant generation ever carries the distinct
`Internal error` message of the unreachable dispatch branch. -/
theorem claim9_internal_error_unreachable :
    (∀ (attrs : List RAttribute) (res : FieldOutputOptions),
        parse_options attrs .enumVariant = .ok res →
        res.print_type = .normal ∨ res.print_type = .skip) ∧
    ∀ (vs : List RVariant) (e : SynError),
      derive_enum_variants vs = .error e → e.message ≠ "Internal error" :=
  ⟨fun _ _ h => parse_options_enumVariant_print h,
   fun _ _ h => derive_enum_variants_error_not_internal h⟩

/-- Witness for C9: an alias-annotated case parses to a normal directive,
and a case with an invalid option errors with a message distinct from
`Internal error`. -/
theorem claim9_witness :
    ((⟨.normal, some "A"⟩ : FieldOutputOptions).print_type = .normal ∨
      (⟨.normal, some "A"⟩ : FieldOutputOptions).print_type = .skip) ∧
    (⟨.nested (.metaNameValue "placeholder" (.str "x")), "invalid option"⟩ :
        SynError).message ≠ "Internal error" := by
  constructor
  · exact claim9_internal_error_unreachable.1
      [⟨"dbg", .list [.metaNameValue "alias" (.str "A")]⟩]
      ⟨.normal, some "A"⟩ (by decide)
  · exact claim9_internal_error_unreachable.2
      [⟨"V", [⟨"dbg", .list [.metaNameValue "placeholder" (.str "x")]⟩],
        .unit⟩]
      ⟨.nested (.metaNameValue "placeholder" (.str "x")), "invalid option"⟩
      (by decide)

/-- Claim C10: both `derive_variant` and `skip_variant` compile a unit case
to a bare write arm whose format string is the display name, whose
rendering therefore runs the name through the format-template semantics
(so escaped braces change), while cases with fields carry the display name
as inert builder data rendered verbatim. -/
theorem claim10_unit_display_is_format_string :
    (∀ name display : String,
        derive_variant name display .unit = .ok (.writeArm name display) ∧
        skip_variant name display .unit = .ok (.writeArm name display)) ∧
    (∀ (name display : String) (env : FieldRef → String)
        (custom : RPath → String → String),
        renderArm env custom (.writeArm name display) = fmtTemplate0 display ∧
        renderArm env custom (.structSkipArm name display) = display ∧
        renderArm env custom (.tupleSkipArm name display) = display) ∧
    (∀ (name display : String) (fs : List NamedField) (arm : VariantArm),
        derive_variant name display (.named fs) = .ok arm →
        ∃ pat frags, arm = .structArm name pat display frags) ∧
    (∀ (name display : String) (fs : List UnnamedField) (arm : VariantArm),
        derive_variant name display (.unnamed fs) = .ok arm →
        ∃ pat frags, arm = .tupleArm name pat display frags) ∧
    (fmtTemplate0 braceyName ≠ braceyName ∧
      ∀ (env : FieldRef → String) (custom : RPath → String → String),
        renderArm env custom (.structSkipArm "V" braceyName) = braceyName ∧
        renderArm env custom (.writeArm "V" braceyName) ≠ braceyName) := by
  refine ⟨fun name display => ⟨rfl, rfl⟩,
    fun name display env custom => ⟨rfl, rfl, rfl⟩, ?_, ?_, by decide,
    fun env custom =>
      ⟨rfl, (by decide : fmtTemplate0 braceyName ≠ braceyName)⟩⟩
  · intro name display fs arm h
    unfold derive_variant at h
    cases hml : derive_match_list (.named fs) with
    | error e =>
        simp only [hml] at h
        exact absurd h (by simp)
    | ok ml =>
        simp only [hml] at h
        cases hfr : derive_named_fields fs false with
        | error e =>
            simp only [hfr] at h
            exact absurd h (by simp)
        | ok frags =>
            simp only [hfr] at h
            obtain rfl := Except.ok.inj h
            exact ⟨ml, frags, rfl⟩
  · intro name display fs arm h
    unfold derive_variant at h
    cases hml : derive_match_list (.unnamed fs) with
    | error e =>
        simp only [hml] at h
        exact absurd h (by simp)
    | ok ml =>
        simp only [hml] at h
        cases hfr : derive_unnamed_fields fs false with
        | error e =>
            simp only [hfr] at h
            exact absurd h (by simp)
        | ok frags =>
            simp only [hfr] at h
            obtain rfl := Except.ok.inj h
            exact ⟨ml, frags, rfl⟩

/-- Witness for C10: a one-field named case produces a struct arm carrying
the display name as data. -/
theorem claim10_witness :
    ∃ pat frags,
      VariantArm.structArm "V" (.braced [.bindNamed "x"]) "D"
          [.normalNamed "x" (.boundNamed "x")] =
        .structArm "V" pat "D" frags :=
  claim10_unit_display_is_format_string.2.2.1 "V" "D" [⟨"x", []⟩]
    (.structArm "V" (.braced [.bindNamed "x"]) "D"
      [.normalNamed "x" (.boundNamed "x")]) (by decide)

end DeriveDebug

example :
    DeriveDebug.parse_options
      [⟨"dbg", .list [.metaNameValue "alias" (.str "Foo"), .metaPath "skip"]⟩]
      .enumVariant =
    .ok ⟨.skip, some "Foo"⟩ := by decide

example :
    DeriveDebug.parse_options
      [⟨"dbg", .list [.metaPath "skip"]⟩] .deriveItem =
    .error ⟨.nested (.metaPath "skip"), "invalid option"⟩ := by decide

example :
    DeriveDebug.parse_options
      [⟨"dbg", .list [.metaNameValue "formatter" (.str "not a path")]⟩]
      .namedField =
    .error ⟨.litStr "not a path", "unexpected token"⟩ := by decide
